import Mathlib

/-!
Verification development for the `lighar-rs` ray-tracing engine.

The engine's core (`src/geom.rs`, `src/rt.rs`, `src/sampler.rs`,
`src/img.rs`, `src/scene.rs`) is shallowly embedded below.  `f32` values
are modelled by the type `FP`: exact rational numbers extended with the
IEEE-754 special values `nan`, `inf` and `ninf` (negative infinity), so
that the sign tests, NaN propagation and NaN-comparison behaviour the
code relies on are reproduced exactly, while rounding of in-range
arithmetic is idealised to exact rational arithmetic.  The model has no
signed zero (`-0.0` is identified with `0.0`, which compares equal to it
in IEEE-754 anyway).
-/

namespace LigHar

/-- Model of an `f32` value: a rational number or one of the IEEE-754
special values NaN, +infinity, -infinity. -/
inductive FP where
  | nan : FP
  | inf : FP
  | ninf : FP
  | num : ℚ → FP
deriving DecidableEq, Repr

/-- Numeric literals for `FP`. -/
instance fpOfNat (n : Nat) : OfNat FP n := ⟨FP.num n⟩

namespace FP

/-- `f32` addition: NaN propagates, opposite infinities give NaN. -/
def add : FP → FP → FP
  | nan, _ => nan
  | _, nan => nan
  | inf, ninf => nan
  | ninf, inf => nan
  | inf, _ => inf
  | _, inf => inf
  | ninf, _ => ninf
  | _, ninf => ninf
  | num a, num b => num (a + b)

/-- `f32` negation. -/
def neg : FP → FP
  | nan => nan
  | inf => ninf
  | ninf => inf
  | num a => num (-a)

/-- `f32` subtraction. -/
def sub (a b : FP) : FP := a.add b.neg

/-- `f32` multiplication: NaN propagates, `0 * inf = NaN`, sign rules for
infinities. -/
def mul : FP → FP → FP
  | nan, _ => nan
  | _, nan => nan
  | inf, inf => inf
  | inf, ninf => ninf
  | ninf, inf => ninf
  | ninf, ninf => inf
  | inf, num b => if b = 0 then nan else if 0 < b then inf else ninf
  | num a, inf => if a = 0 then nan else if 0 < a then inf else ninf
  | ninf, num b => if b = 0 then nan else if 0 < b then ninf else inf
  | num a, ninf => if a = 0 then nan else if 0 < a then ninf else inf
  | num a, num b => num (a * b)

/-- `f32` division: NaN propagates, `0/0 = NaN`, `x/0 = ±inf` for
nonzero finite `x`, `inf/inf = NaN`, finite over infinite is `0`
(the model has no signed zero). -/
def div : FP → FP → FP
  | nan, _ => nan
  | _, nan => nan
  | inf, inf => nan
  | inf, ninf => nan
  | ninf, inf => nan
  | ninf, ninf => nan
  | inf, num b => if b < 0 then ninf else inf
  | ninf, num b => if b < 0 then inf else ninf
  | num _, inf => num 0
  | num _, ninf => num 0
  | num a, num b =>
    if b = 0 then (if a = 0 then nan else if 0 < a then inf else ninf)
    else num (a / b)

/-- `f32` `<` comparison as a boolean: any comparison with NaN is false. -/
def lt : FP → FP → Bool
  | nan, _ => false
  | _, nan => false
  | ninf, ninf => false
  | ninf, _ => true
  | _, ninf => false
  | inf, _ => false
  | num _, inf => true
  | num a, num b => decide (a < b)

/-- `f32` `<=` comparison as a boolean: any comparison with NaN is false. -/
def le : FP → FP → Bool
  | nan, _ => false
  | _, nan => false
  | ninf, _ => true
  | _, ninf => false
  | _, inf => true
  | inf, _ => false
  | num a, num b => decide (a ≤ b)

/-- `f32::abs`. -/
def abs : FP → FP
  | nan => nan
  | inf => inf
  | ninf => inf
  | num a => num |a|

/-- `PartialOrd::partial_cmp` on `f32`: `none` when either side is NaN. -/
def pcmp : FP → FP → Option Ordering
  | nan, _ => none
  | _, nan => none
  | ninf, ninf => some .eq
  | ninf, _ => some .lt
  | _, ninf => some .gt
  | inf, inf => some .eq
  | inf, _ => some .gt
  | num _, inf => some .lt
  | num a, num b =>
    if a < b then some .lt else if b < a then some .gt else some .eq

/-- `f32::max`: if one operand is NaN the other is returned. -/
def fmax : FP → FP → FP
  | nan, b => b
  | a, nan => a
  | a, b => if a.lt b then b else a

/-- `f32::min`: if one operand is NaN the other is returned. -/
def fmin : FP → FP → FP
  | nan, b => b
  | a, nan => a
  | a, b => if b.lt a then b else a

/-- Newton iteration for the integer square root, with explicit fuel so
that the recursion is structural.  The caller validates the result by
squaring, so exhausted fuel can only lose exactness, never soundness. -/
def sqrtIter (n : Nat) : Nat → Nat → Nat
  | guess, 0 => guess
  | guess, fuel + 1 =>
    let next := (guess + n / guess) / 2
    if next < guess then sqrtIter n next fuel else guess

/-- Integer square-root candidate (exact for every perfect square below
`2 ^ 128`, which covers every literal of this development; the caller
checks exactness by squaring). -/
def isqrt (n : Nat) : Nat :=
  if n ≤ 1 then n else sqrtIter n (n / 2 + 1) 128

/-- Exact rational square root, if it exists.  A nonnegative reduced
fraction is a rational square exactly when its numerator and denominator
are perfect squares. -/
def ratSqrt (q : ℚ) : Option ℚ :=
  if q < 0 then none
  else
    let n := q.num.toNat
    let d := q.den
    let sn := isqrt n
    let sd := isqrt d
    if sn * sn = n ∧ sd * sd = d then some ((sn : ℚ) / (sd : ℚ)) else none

/-- `f32::sqrt`: NaN for negative inputs, `inf` for `inf`.  The model is
exact: on a rational that is a perfect square it returns the exact root.
(An inexact root has no exact rational value; every square root taken in
this development is of a perfect rational square, so the fallback branch
of `ratSqrt` is never distinguished.) -/
def sqrt : FP → FP
  | nan => nan
  | inf => inf
  | ninf => nan
  | num q => match ratSqrt q with
    | some r => num r
    | none => nan

/-- `x as usize`: the saturating, truncating-toward-zero float-to-integer
cast.  NaN and negative values go to 0.  (The source saturates `inf` to
`usize::MAX`; the unbounded model maps it to 0, and no input of this
development reaches that branch: every cast here is of a value already
clamped into `[0, 1] * (width - 1)`.) -/
def toUsize : FP → Nat
  | num q => if q ≤ 0 then 0 else q.floor.toNat
  | _ => 0

/-- Whether the value is an actual number (not NaN or an infinity). -/
def isNum : FP → Bool
  | num _ => true
  | _ => false

end FP

/-- `geom::Point(f32, f32, f32)`; fields `x`, `y`, `z` stand for the
tuple fields `.0`, `.1`, `.2`. -/
structure Point where
  x : FP
  y : FP
  z : FP
deriving DecidableEq, Repr

/-- `geom::Vector(f32, f32, f32)`. -/
structure Vector where
  x : FP
  y : FP
  z : FP
deriving DecidableEq, Repr

namespace Point

/-- `Point::affine_add`. -/
def affine_add (p : Point) (rhs : Vector) : Point :=
  ⟨p.x.add rhs.x, p.y.add rhs.y, p.z.add rhs.z⟩

/-- `Point::affine_sub`. -/
def affine_sub (p : Point) (rhs : Vector) : Point :=
  ⟨p.x.sub rhs.x, p.y.sub rhs.y, p.z.sub rhs.z⟩

/-- `Point::rel_from`: relative position offset vector from `rhs`. -/
def rel_from (p : Point) (rhs : Point) : Vector :=
  ⟨p.x.sub rhs.x, p.y.sub rhs.y, p.z.sub rhs.z⟩

/-- `Point::to_vec` (only used to calculate barycentric coordinates). -/
def to_vec (p : Point) : Vector := ⟨p.x, p.y, p.z⟩

end Point

namespace Vector

/-- `Vector::dot`. -/
def dot (v rhs : Vector) : FP :=
  ((v.x.mul rhs.x).add (v.y.mul rhs.y)).add (v.z.mul rhs.z)

/-- `Vector::cross`. -/
def cross (v rhs : Vector) : Vector :=
  ⟨(v.y.mul rhs.z).sub (v.z.mul rhs.y),
   (v.z.mul rhs.x).sub (v.x.mul rhs.z),
   (v.x.mul rhs.y).sub (v.y.mul rhs.x)⟩

/-- `Vector::normalize`: divide by the Euclidean length
`sqrt(dot(self, self))`.  Dividing the zero vector by its zero length
yields NaN components, as in IEEE-754. -/
def normalize (v : Vector) : Vector :=
  let l := (v.dot v).sqrt
  ⟨v.x.div l, v.y.div l, v.z.div l⟩

/-- `Vector + Vector`. -/
def add (v rhs : Vector) : Vector :=
  ⟨v.x.add rhs.x, v.y.add rhs.y, v.z.add rhs.z⟩

/-- `Vector - Vector`. -/
def sub (v rhs : Vector) : Vector :=
  ⟨v.x.sub rhs.x, v.y.sub rhs.y, v.z.sub rhs.z⟩

/-- `Vector * f32` (and the mirrored `f32 * Vector`, which multiplies
the same components in the same order). -/
def smul (v : Vector) (s : FP) : Vector :=
  ⟨v.x.mul s, v.y.mul s, v.z.mul s⟩

/-- `Vector / f32`. -/
def sdiv (v : Vector) (s : FP) : Vector :=
  ⟨v.x.div s, v.y.div s, v.z.div s⟩

/-- `-Vector`. -/
def neg (v : Vector) : Vector := ⟨v.x.neg, v.y.neg, v.z.neg⟩

/-- All three components are actual numbers. -/
def isNumV (v : Vector) : Bool := v.x.isNum && v.y.isNum && v.z.isNum

end Vector

/-- `geom::Color(f32, f32, f32, f32)`. -/
structure Color where
  r : FP
  g : FP
  b : FP
  a : FP
deriving DecidableEq, Repr

/-- `rt::HitKind`. -/
inductive HitKind where
  | Front : HitKind
  | Back : HitKind
deriving DecidableEq, Repr

/-- `rt::Intersection<RayAttr>`: hit attribute, front/back kind, and the
stored distance `t`. -/
structure Intersection (RayAttr : Type) where
  attr : RayAttr
  kind : HitKind
  t : FP
deriving DecidableEq, Repr

/-- `geom::Triangle`: origin, two edge vectors in clockwise order, and
the unit normal. -/
structure Triangle where
  o : Point
  x : Vector
  y : Vector
  n : Vector
deriving DecidableEq, Repr

/-- `Triangle::new`: edges `x = b - a`, `y = c - a`, and unit normal
`normalize(cross(y, x))`. -/
def Triangle.new (a b c : Point) : Triangle :=
  let x := b.rel_from a
  let y := c.rel_from a
  let n := (y.cross x).normalize
  ⟨a, x, y, n⟩

/-- `geom::Barycentric`. -/
structure Barycentric where
  u : FP
  v : FP
deriving DecidableEq, Repr

/-- The `u` weight of the barycentric solve in `Barycentric::new`:
`(d11*d20 - d01*d21) / denom` with `denom = d00*d11 - d01*d01`. -/
def baryU (p : Point) (tri : Triangle) : FP :=
  let x := tri.x
  let y := tri.y
  let pv := p.to_vec.sub tri.o.to_vec
  let d00 := x.dot x
  let d01 := x.dot y
  let d11 := y.dot y
  let d20 := pv.dot x
  let d21 := pv.dot y
  let denom := (d00.mul d11).sub (d01.mul d01)
  ((d11.mul d20).sub (d01.mul d21)).div denom

/-- The `v` weight of the barycentric solve in `Barycentric::new`:
`(d00*d21 - d01*d20) / denom`. -/
def baryV (p : Point) (tri : Triangle) : FP :=
  let x := tri.x
  let y := tri.y
  let pv := p.to_vec.sub tri.o.to_vec
  let d00 := x.dot x
  let d01 := x.dot y
  let d11 := y.dot y
  let d20 := pv.dot x
  let d21 := pv.dot y
  let denom := (d00.mul d11).sub (d01.mul d01)
  ((d00.mul d21).sub (d01.mul d20)).div denom

/-- `Barycentric::new`: solve for the weights and reject when
`u < 0.0 || v < 0.0 || u + v > 1.0`. -/
def Barycentric.new (p : Point) (tri : Triangle) : Option Barycentric :=
  let u := baryU p tri
  let v := baryV p tri
  if u.lt 0 || v.lt 0 || FP.lt 1 (u.add v) then none
  else some ⟨u, v⟩

/-- `geom::Ray`: origin and direction. -/
structure Ray where
  o : Point
  v : Vector
deriving DecidableEq, Repr

/-- The local `r1` of `ray_cast_tri`: the signed displacement from the
triangle plane to the ray origin, `dot(ray.o - tri.o, tri.n)`. -/
def rctR1 (ray : Ray) (tri : Triangle) : FP :=
  (ray.o.rel_from tri.o).dot tri.n

/-- The local `r2` of `ray_cast_tri`: the projection of the ray
direction on the normal, `dot(ray.v, tri.n)`. -/
def rctR2 (ray : Ray) (tri : Triangle) : FP :=
  ray.v.dot tri.n

/-- The intersection position computed by `ray_cast_tri`:
`ray.o - ray.v * r1 / r2`. -/
def rctPos (ray : Ray) (tri : Triangle) : Point :=
  ray.o.affine_sub (((ray.v.smul (rctR1 ray tri))).sdiv (rctR2 ray tri))

/-- `geom::ray_cast_tri`: reject when `r1 * r2 >= 0.0`, otherwise solve
the barycentric weights at the plane intersection point and return
`t = r1.abs()` with `Front` when `r2 < 0.0`, else `Back`. -/
def ray_cast_tri (ray : Ray) (tri : Triangle) : Option (Intersection Barycentric) :=
  let r1 := rctR1 ray tri
  let r2 := rctR2 ray tri
  if FP.le 0 (r1.mul r2) then none
  else
    let pos := rctPos ray tri
    match Barycentric.new pos tri with
    | some bary =>
      let t := r1.abs
      let kind := if r2.lt 0 then HitKind.Front else HitKind.Back
      some ⟨bary, kind, t⟩
    | none => none

/-- `geom::reflect`: `-2.0 * (i - i.dot(n) * n)` (note: NOT the standard
reflection formula `i - 2*dot(i,n)*n`). -/
def reflect (i n : Vector) : Vector :=
  (i.sub (n.smul (i.dot n))).smul (FP.num (-2))

/-- `geom::Transform`: three row vectors and the affine translation. -/
structure Transform where
  r1 : Vector
  r2 : Vector
  r3 : Vector
  af : Vector
deriving DecidableEq, Repr

namespace Transform

/-- `Transform::eye`. -/
def eye : Transform :=
  ⟨⟨1, 0, 0⟩, ⟨0, 1, 0⟩, ⟨0, 0, 1⟩, ⟨0, 0, 0⟩⟩

/-- `Transform::translate`: adds to the affine part. -/
def translate (t : Transform) (af : Vector) : Transform :=
  ⟨t.r1, t.r2, t.r3, t.af.add af⟩

/-- `Transform::scale`: per-row scale. -/
def scale (t : Transform) (s : Vector) : Transform :=
  ⟨t.r1.smul s.x, t.r2.smul s.y, t.r3.smul s.z, t.af⟩

/-- `Transform::to_cols`. -/
def to_cols (t : Transform) : Vector × Vector × Vector :=
  (⟨t.r1.x, t.r2.x, t.r3.x⟩, ⟨t.r1.y, t.r2.y, t.r3.y⟩, ⟨t.r1.z, t.r2.z, t.r3.z⟩)

/-- `Transform * Transform` (`A.mulT B` applies `B` first, then `A`). -/
def mulT (t rhs : Transform) : Transform :=
  let c := rhs.to_cols
  let e11 := t.r1.dot c.1
  let e12 := t.r1.dot c.2.1
  let e13 := t.r1.dot c.2.2
  let e21 := t.r2.dot c.1
  let e22 := t.r2.dot c.2.1
  let e23 := t.r2.dot c.2.2
  let e31 := t.r3.dot c.1
  let e32 := t.r3.dot c.2.1
  let e33 := t.r3.dot c.2.2
  ⟨⟨e11, e12, e13⟩, ⟨e21, e22, e23⟩, ⟨e31, e32, e33⟩,
   ⟨(t.r1.dot rhs.af).add t.af.x,
    (t.r2.dot rhs.af).add t.af.y,
    (t.r3.dot rhs.af).add t.af.z⟩⟩

/-- `Transform::rotate` (Rodrigues' formula), composed on the left:
`RotationMatrix * self`.  The source takes an angle and computes
`(sin, cos) = angle.sin_cos()`; the embedding takes that already
evaluated pair, since the trigonometric functions of `f32` have no
exact rational counterpart.  Everything after the `sin_cos` call is
verbatim. -/
def rotate (t : Transform) (sin cos : FP) (axis : Vector) : Transform :=
  let x := axis.x
  let y := axis.y
  let z := axis.z
  let rcos := FP.sub 1 cos
  let r1 : Vector :=
    ⟨cos.add ((rcos.mul x).mul x),
     ((rcos.mul x).mul y).sub (sin.mul z),
     ((rcos.mul x).mul z).add (sin.mul y)⟩
  let r2 : Vector :=
    ⟨((rcos.mul y).mul x).add (sin.mul z),
     cos.add ((rcos.mul y).mul y),
     ((rcos.mul y).mul z).sub (sin.mul x)⟩
  let r3 : Vector :=
    ⟨((rcos.mul z).mul x).sub (sin.mul y),
     ((rcos.mul z).mul y).add (sin.mul x),
     cos.add ((rcos.mul z).mul z)⟩
  mulT ⟨r1, r2, r3, ⟨0, 0, 0⟩⟩ t

/-- `Transform::inverse`: adjugate-over-determinant for the 3x3 part,
and the affine part simply negated (`af = -self.af`). -/
def inverse (t : Transform) : Transform :=
  let det :=
    (((((t.r1.x.mul t.r2.y).mul t.r3.z).sub
       ((t.r1.x.mul t.r2.z).mul t.r3.y)).sub
       ((t.r2.x.mul t.r1.y).mul t.r3.z)).add
       ((t.r2.x.mul t.r1.z).mul t.r3.y)).add
       ((((t.r3.x.mul t.r1.y).mul t.r2.z)).sub
        ((t.r3.x.mul t.r1.z).mul t.r2.y))
  let r1 : Vector :=
    ⟨((t.r2.y.mul t.r3.z).sub (t.r3.y.mul t.r2.z)).div det,
     ((t.r1.z.mul t.r3.y).sub (t.r1.y.mul t.r3.z)).div det,
     ((t.r1.y.mul t.r2.z).sub (t.r1.z.mul t.r2.y)).div det⟩
  let r2 : Vector :=
    ⟨((t.r2.z.mul t.r3.x).sub (t.r2.x.mul t.r3.z)).div det,
     ((t.r1.x.mul t.r3.z).sub (t.r1.z.mul t.r3.x)).div det,
     ((t.r2.x.mul t.r1.z).sub (t.r1.x.mul t.r2.z)).div det⟩
  let r3 : Vector :=
    ⟨((t.r2.x.mul t.r3.y).sub (t.r2.y.mul t.r3.x)).div det,
     ((t.r1.y.mul t.r3.x).sub (t.r1.x.mul t.r3.y)).div det,
     ((t.r1.x.mul t.r2.y).sub (t.r2.x.mul t.r1.y)).div det⟩
  ⟨r1, r2, r3, t.af.neg⟩

/-- `Transform * Point`. -/
def mulPoint (t : Transform) (p : Point) : Point :=
  ⟨(t.r1.dot p.to_vec).add t.af.x,
   (t.r2.dot p.to_vec).add t.af.y,
   (t.r3.dot p.to_vec).add t.af.z⟩

/-- `Transform * Vector`. -/
def mulVector (t : Transform) (v : Vector) : Vector :=
  ⟨t.r1.dot v, t.r2.dot v, t.r3.dot v⟩

/-- `Transform * Ray`: the direction is renormalized after the linear
map. -/
def mulRay (t : Transform) (ray : Ray) : Ray :=
  ⟨t.mulPoint ray.o, (t.mulVector ray.v).normalize⟩

end Transform

/-- `scene::Object<Material>`.  The source stores vertex indices in a
`Vec` and panics on an out-of-range access; the model reads them with a
default (never reached in this development). -/
structure Object (Material : Type) where
  verts : List Point
  idxs : List (Nat × Nat × Nat)
  mat : Material
  obj2world : Transform
  world2obj : Transform

/-- `scene::Scene<Material>`: an ordered list of objects. -/
structure Scene (Material : Type) where
  objs : List (Object Material)

/-- The `rt::RayTracer` trait: the four user callbacks (the mutable
payload is threaded explicitly) and the bound scene.  `ray_gen` and
`draw` drive pixels and are out of the traced core. -/
structure RayTracer (Material Payload RayT RayAttr : Type) where
  intersect : RayT → Triangle → Material → Option (Intersection RayAttr)
  any_hit : RayT → Triangle → Intersection RayAttr → Payload → Material → Bool × Payload
  miss : RayT → Payload → Color × Payload
  closest_hit : RayT → Triangle → Intersection RayAttr → Payload → Material → Color × Payload
  scene : Scene Material

section Trace

variable {Material Payload RayT RayAttr : Type}

/-- A traversal candidate: the triangle, its object's material and the
intersection, as stored in the `closest` variable of `trace`. -/
abbrev Cand (Material RayAttr : Type) : Type :=
  Triangle × Material × Intersection RayAttr

/-- The running `tmax` of `trace`:
`closest.map(|(_, _, i)| i.t).unwrap_or(INFINITY)`. -/
def tmaxOf {Material RayAttr : Type} : Option (Cand Material RayAttr) → FP
  | none => FP.inf
  | some c => c.2.2.t

/-- The default point used for an out-of-range vertex index (the source
panics there; no index of this development is out of range). -/
def dfltPoint : Point := ⟨0, 0, 0⟩

/-- One iteration of the inner loop of `RayTracer::trace`: build the
triangle for one index triple, run `intersect`, run `any_hit` on a
reported intersection, and replace the running closest candidate when
the accepted hit's `t` is strictly below the running `tmax`. -/
def traceStep (rt : RayTracer Material Payload RayT RayAttr) (ray : RayT)
    (mat : Material) (verts : List Point)
    (acc : Option (Cand Material RayAttr) × Payload)
    (idx : Nat × Nat × Nat) : Option (Cand Material RayAttr) × Payload :=
  let tri := Triangle.new (verts.getD idx.1 dfltPoint)
    (verts.getD idx.2.1 dfltPoint) (verts.getD idx.2.2 dfltPoint)
  match rt.intersect ray tri mat with
  | none => acc
  | some x =>
    let ah := rt.any_hit ray tri x acc.2 mat
    if ah.1 then
      if x.t.lt (tmaxOf acc.1) then (some (tri, mat, x), ah.2)
      else (acc.1, ah.2)
    else (acc.1, ah.2)

/-- One iteration of the outer loop of `RayTracer::trace`: transform
every vertex of the object by its `world2obj`, then fold the inner loop
over the index triples. -/
def traceObj (rt : RayTracer Material Payload RayT RayAttr) (ray : RayT)
    (acc : Option (Cand Material RayAttr) × Payload)
    (obj : Object Material) : Option (Cand Material RayAttr) × Payload :=
  let verts := obj.verts.map (fun v => obj.world2obj.mulPoint v)
  obj.idxs.foldl (traceStep rt ray obj.mat verts) acc

/-- `RayTracer::trace`: scan every object and triangle keeping the
closest accepted candidate, then dispatch to `closest_hit` or `miss`. -/
def RayTracer.trace (rt : RayTracer Material Payload RayT RayAttr)
    (ray : RayT) (payload : Payload) : Color × Payload :=
  let res := rt.scene.objs.foldl (traceObj rt ray) (none, payload)
  match res.1 with
  | some c => rt.closest_hit ray c.1 c.2.2 res.2 c.2.1
  | none => rt.miss ray res.2

/-- Specification-side description of the traversal: the list of
candidates — intersections reported by `intersect` and accepted by
`any_hit` — in iteration order over one object's index triples, with
the payload threaded through the same `any_hit` calls `trace` makes. -/
def candsOfIdxs (rt : RayTracer Material Payload RayT RayAttr) (ray : RayT)
    (mat : Material) (verts : List Point) (p : Payload) :
    List (Nat × Nat × Nat) → List (Cand Material RayAttr) × Payload
  | [] => ([], p)
  | idx :: rest =>
    let tri := Triangle.new (verts.getD idx.1 dfltPoint)
      (verts.getD idx.2.1 dfltPoint) (verts.getD idx.2.2 dfltPoint)
    match rt.intersect ray tri mat with
    | none => candsOfIdxs rt ray mat verts p rest
    | some x =>
      let ah := rt.any_hit ray tri x p mat
      let res := candsOfIdxs rt ray mat verts ah.2 rest
      if ah.1 then ((tri, mat, x) :: res.1, res.2) else res

/-- Specification-side description of the traversal over the whole
scene: accepted candidates of every object, in object order. -/
def candsOfObjs (rt : RayTracer Material Payload RayT RayAttr) (ray : RayT)
    (p : Payload) : List (Object Material) → List (Cand Material RayAttr) × Payload
  | [] => ([], p)
  | obj :: rest =>
    let verts := obj.verts.map (fun v => obj.world2obj.mulPoint v)
    let res1 := candsOfIdxs rt ray obj.mat verts p obj.idxs
    let res2 := candsOfObjs rt ray res1.2 rest
    (res1.1 ++ res2.1, res2.2)

/-- The accepted candidates of a full `trace` call, in encounter order,
with the final payload. -/
def acceptedCandidates (rt : RayTracer Material Payload RayT RayAttr)
    (ray : RayT) (p : Payload) : List (Cand Material RayAttr) × Payload :=
  candsOfObjs rt ray p rt.scene.objs

/-- The candidate-selection step of `trace`, abstracted from the loop:
replace the running best when the new candidate's `t` is strictly less
than the running `tmax`. -/
def selStep {Material RayAttr : Type} (b : Option (Cand Material RayAttr))
    (c : Cand Material RayAttr) : Option (Cand Material RayAttr) :=
  if c.2.2.t.lt (tmaxOf b) then some c else b

end Trace

/-- `img::Image`: a row-major pixel buffer with its dimensions.  The
constructors (`Image::new`, decoding) always allocate `w * h` pixels. -/
structure Image where
  buf : List Color
  w : Nat
  h : Nat
deriving DecidableEq, Repr

/-- `Image::width`. -/
def Image.width (img : Image) : Nat := img.w

/-- `Image::height`. -/
def Image.height (img : Image) : Nat := img.h

/-- `Image::coords2offset`: `x + w * y`. -/
def Image.coords2offset (img : Image) (x y : Nat) : Nat := x + img.w * y

/-- `Image::load_px`: indexes the buffer; the source panics on an
out-of-bounds offset, modelled by `none`. -/
def Image.load_px (img : Image) (x y : Nat) : Option Color :=
  img.buf.get? (img.coords2offset x y)

/-- `(0..3).max_by(|a, b| absdir[a].partial_cmp(&absdir[b]).unwrap_or(Equal))`:
`Iterator::max_by` keeps the running maximum only when it compares
strictly greater than the next element, so later elements win ties (and
NaN comparisons, which `unwrap_or` turns into ties). -/
def maxBy3 (f : Nat → FP) : Nat :=
  let a1 := if (f 0).pcmp (f 1) = some Ordering.gt then 0 else 1
  if (f a1).pcmp (f 2) = some Ordering.gt then a1 else 2

/-- `CubeSampler::sample`.  Face images are ordered +X, -X, +Y, -Y, +Z,
-Z.  The `unreachable!` arm, a missing face image and an out-of-bounds
pixel load (all panics in the source) are modelled by `none`. -/
def CubeSampler.sample (imgs : List Image) (v : Vector) : Option Color :=
  let dir : Nat → FP := fun i => if i = 0 then v.x else if i = 1 then v.y else v.z
  let absdir : Nat → FP := fun i => (dir i).abs
  let i := maxBy3 absdir
  let sel : Option (FP × FP × Nat) :=
    match i, FP.lt 0 (dir i) with
    | 0, true => some (v.z.neg, v.y, 0)
    | 0, false => some (v.z, v.y, 1)
    | 1, true => some (v.x, v.z.neg, 2)
    | 1, false => some (v.x, v.z, 3)
    | 2, true => some (v.x, v.y, 4)
    | 2, false => some (v.x.neg, v.y, 5)
    | _, _ => none
  match sel with
  | none => none
  | some (u0, v0, face) =>
    match imgs.get? face with
    | none => none
    | some img =>
      let m := absdir i
      let px := (((FP.num (1/2)).mul ((u0.div m).add 1)).fmax 0).fmin 1
      let py := (((FP.num (1/2)).mul ((v0.div m).add 1)).fmax 0).fmin 1
      let ux := (px.mul (FP.num ((img.width - 1 : ℕ) : ℚ))).toUsize
      let uy := (py.mul (FP.num ((img.height - 1 : ℕ) : ℚ))).toUsize
      img.load_px ux uy

section FPFacts

/-- A numeric value is some rational. -/
theorem FP.isNum_iff {a : FP} : a.isNum = true ↔ ∃ q : ℚ, a = FP.num q := by
  cases a <;> simp [FP.isNum]

/-- The product of two strictly negative `f32` values is nonnegative
(the factors may be `ninf`; NaN is excluded by the comparisons). -/
theorem FP.le_zero_mul_of_neg_neg {a b : FP} (ha : a.lt 0 = true)
    (hb : b.lt 0 = true) : FP.le 0 (a.mul b) = true := by
  cases a <;> cases b <;> simp_all [FP.lt, FP.mul, FP.le]
  all_goals try split_ifs
  all_goals try simp_all
  all_goals nlinarith

/-- The product of two strictly positive `f32` values is nonnegative. -/
theorem FP.le_zero_mul_of_pos_pos {a b : FP} (ha : FP.lt 0 a = true)
    (hb : FP.lt 0 b = true) : FP.le 0 (a.mul b) = true := by
  cases a <;> cases b <;> simp_all [FP.lt, FP.mul, FP.le]
  all_goals try split_ifs
  all_goals try simp_all
  all_goals nlinarith

end FPFacts

section C3Section

/-- Claim **C3**: For every ray and triangle, with `d = dot(ray.o - tri.o, tri.n)`
and `r = dot(ray.v, tri.n)` (the locals `r1`/`r2` of `ray_cast_tri`):
if `d * r >= 0.0` then `ray_cast_tri` returns no intersection; in
particular a ray parallel to the supporting plane (`r == 0`, with `d` an
actual number), a ray aimed at the front face (`r < 0`) from behind the
plane (`d < 0`), and a ray aimed at the back face (`r > 0`) from ahead
of the plane (`d > 0`) all yield no-hit. -/
theorem C3_nonneg_product_rejects (ray : Ray) (tri : Triangle) :
    (FP.le 0 ((rctR1 ray tri).mul (rctR2 ray tri)) = true →
      ray_cast_tri ray tri = none) ∧
    (rctR2 ray tri = FP.num 0 → (rctR1 ray tri).isNum = true →
      ray_cast_tri ray tri = none) ∧
    ((rctR1 ray tri).lt 0 = true → (rctR2 ray tri).lt 0 = true →
      ray_cast_tri ray tri = none) ∧
    (FP.lt 0 (rctR1 ray tri) = true → FP.lt 0 (rctR2 ray tri) = true →
      ray_cast_tri ray tri = none) := by
  have main : FP.le 0 ((rctR1 ray tri).mul (rctR2 ray tri)) = true →
      ray_cast_tri ray tri = none := by
    intro h
    simp [ray_cast_tri, h]
  refine ⟨main, ?_, ?_, ?_⟩
  · intro h2 h1
    rcases FP.isNum_iff.1 h1 with ⟨q, hq⟩
    apply main
    simp [hq, h2, FP.mul, FP.le]
  · intro h1 h2
    exact main (FP.le_zero_mul_of_neg_neg h1 h2)
  · intro h1 h2
    exact main (FP.le_zero_mul_of_pos_pos h1 h2)

/-- A parallel ray over the plane `z = 0`: the witness instantiation of
C3. -/
def c3ray : Ray := ⟨⟨0, 0, 5⟩, ⟨1, 0, 0⟩⟩

/-- A concrete triangle in the plane `z = 0` (normal `(0, 0, -1)`). -/
def c3tri : Triangle := Triangle.new ⟨0, 0, 0⟩ ⟨1, 0, 0⟩ ⟨0, 1, 0⟩

/-- Witness for C3: a concrete ray travelling parallel to a concrete
triangle's supporting plane is rejected. -/
theorem C3_nonneg_product_rejects_witness :
    rctR2 c3ray c3tri = FP.num 0 ∧ (rctR1 c3ray c3tri).isNum = true ∧
      ray_cast_tri c3ray c3tri = none :=
  ⟨by with_unfolding_all decide, by with_unfolding_all decide,
    (C3_nonneg_product_rejects c3ray c3tri).2.1
      (by with_unfolding_all decide) (by with_unfolding_all decide)⟩

end C3Section

section C4Section

/-- Claim **C4 (amended)**: Whenever `ray_cast_tri` returns an intersection,
the stored `t` equals `|d|` (the absolute plane offset `r1`), and the
kind is `Front` exactly when `r < 0`.  Moreover, when `d` is an actual
number `t >= 0` holds, and when `d` and `r` are both actual numbers the
kind is `Back` exactly when `r > 0`.  (Without those numeric premises
the original claim fails: a degenerate triangle yields `t = NaN`, for
which `t >= 0` is false and `Back` is reported although `r > 0` is
false; see the counterexample.) -/
theorem C4_t_abs_and_kind (ray : Ray) (tri : Triangle)
    (isect : Intersection Barycentric)
    (h : ray_cast_tri ray tri = some isect) :
    isect.t = (rctR1 ray tri).abs ∧
    (isect.kind = HitKind.Front ↔ (rctR2 ray tri).lt 0 = true) ∧
    ((rctR1 ray tri).isNum = true → FP.le 0 isect.t = true) ∧
    ((rctR1 ray tri).isNum = true → (rctR2 ray tri).isNum = true →
      (isect.kind = HitKind.Back ↔ FP.lt 0 (rctR2 ray tri) = true)) := by
  simp only [ray_cast_tri] at h
  split at h
  · exact absurd h (by simp)
  · rename_i hguard
    have habs : ∀ q : ℚ, (rctR1 ray tri) = FP.num q → FP.le 0 (rctR1 ray tri).abs = true := by
      intro q hq
      simp only [hq, FP.abs, FP.le, OfNat.ofNat]
      simp [abs_nonneg]
    have hprod : ∀ q1 q2 : ℚ, rctR1 ray tri = FP.num q1 → rctR2 ray tri = FP.num q2 →
        q1 * q2 < 0 := by
      intro q1 q2 hq1 hq2
      rw [hq1, hq2] at hguard
      simp only [FP.mul, FP.le, OfNat.ofNat] at hguard
      by_contra hc
      exact hguard (by simp; linarith [not_lt.1 hc])
    split at h
    · rename_i bary hbary
      split at h
      · rename_i hlt
        injection h with h
        subst h
        refine ⟨rfl, by simp [hlt], ?_, ?_⟩
        · intro h1
          rcases FP.isNum_iff.1 h1 with ⟨q, hq⟩
          exact habs q hq
        · intro h1 h2
          rcases FP.isNum_iff.1 h2 with ⟨q2, hq2⟩
          rw [hq2] at hlt
          simp only [FP.lt, OfNat.ofNat] at hlt
          simp at hlt
          simp only [hq2, FP.lt, OfNat.ofNat]
          constructor
          · intro hk
            exact absurd hk (by simp)
          · intro hc
            simp at hc
            linarith
      · rename_i hlt
        injection h with h
        subst h
        refine ⟨rfl, by simp [hlt], ?_, ?_⟩
        · intro h1
          rcases FP.isNum_iff.1 h1 with ⟨q, hq⟩
          exact habs q hq
        · intro h1 h2
          rcases FP.isNum_iff.1 h1 with ⟨q1, hq1⟩
          rcases FP.isNum_iff.1 h2 with ⟨q2, hq2⟩
          have hneg := hprod q1 q2 hq1 hq2
          rw [hq2] at hlt
          simp only [FP.lt, OfNat.ofNat] at hlt
          simp at hlt
          have hz : q2 ≠ 0 := by
            intro hz
            rw [hz] at hneg
            simp at hneg
          have hpos : 0 < q2 := lt_of_le_of_ne hlt (Ne.symm hz)
          simp only [hq2, FP.lt, OfNat.ofNat]
          simp [hpos]
    · exact absurd h (by simp)

/-- A degenerate (zero-area) triangle used in the C4 counterexample. -/
def c4tri : Triangle := Triangle.new ⟨1, 1, 1⟩ ⟨1, 1, 1⟩ ⟨1, 1, 1⟩

/-- The ray of the C4 counterexample. -/
def c4ray : Ray := ⟨⟨0, 0, FP.num (-1)⟩, ⟨0, 0, 1⟩⟩

/-- Counterexample to **C4** as stated: on a degenerate triangle
`ray_cast_tri` returns an intersection whose stored `t` is NaN, so
`t >= 0` does NOT hold, and the kind is `Back` although `r > 0` is
false. -/
theorem C4_counterexample :
    ray_cast_tri c4ray c4tri =
      some ⟨⟨FP.nan, FP.nan⟩, HitKind.Back, FP.nan⟩ ∧
    FP.le 0 FP.nan = false ∧
    FP.lt 0 (rctR2 c4ray c4tri) = false := by
  refine ⟨?_, rfl, ?_⟩ <;> with_unfolding_all decide

/-- The ray of the C4 witness. -/
def c4wray : Ray := ⟨⟨0, 0, 0⟩, ⟨0, 0, 1⟩⟩

/-- A concrete non-degenerate triangle in the plane `z = 1` (normal
`(0, 0, -1)`), hit front-face by `c4wray`. -/
def c4wtri : Triangle :=
  Triangle.new ⟨FP.num (-1), FP.num (-1), 1⟩ ⟨1, FP.num (-1), 1⟩ ⟨0, 1, 1⟩

/-- The intersection `ray_cast_tri` reports for the C4 witness. -/
def c4wisect : Intersection Barycentric :=
  ⟨⟨FP.num (1/4), FP.num (1/2)⟩, HitKind.Front, 1⟩

/-- Witness for C4: the amended theorem applied at a concrete
non-degenerate front-face hit. -/
theorem C4_t_abs_and_kind_witness :
    ray_cast_tri c4wray c4wtri = some c4wisect ∧
    (c4wisect.t = (rctR1 c4wray c4wtri).abs ∧
     (c4wisect.kind = HitKind.Front ↔ (rctR2 c4wray c4wtri).lt 0 = true) ∧
     ((rctR1 c4wray c4wtri).isNum = true → FP.le 0 c4wisect.t = true) ∧
     ((rctR1 c4wray c4wtri).isNum = true → (rctR2 c4wray c4wtri).isNum = true →
       (c4wisect.kind = HitKind.Back ↔ FP.lt 0 (rctR2 c4wray c4wtri) = true))) :=
  ⟨by with_unfolding_all decide,
   C4_t_abs_and_kind c4wray c4wtri c4wisect (by with_unfolding_all decide)⟩

end C4Section

section C5Section

/-- Claim **C5 (amended)**: When the barycentric solve produces NaN for both
`u` and `v`, the rejection test `u < 0.0 || v < 0.0 || u + v > 1.0`
evaluates to `false` (NaN comparisons are false), so `Barycentric::new`
returns `Some` carrying the NaN weights — NOT `None` — and, whenever
the half-space guard of `ray_cast_tri` also passes, `ray_cast_tri`
reports an intersection carrying those NaN coordinates rather than
no-hit. -/
theorem C5_nan_bary_accepted :
    (∀ (tri : Triangle) (p : Point),
      baryU p tri = FP.nan → baryV p tri = FP.nan →
      Barycentric.new p tri = some ⟨FP.nan, FP.nan⟩) ∧
    (∀ (ray : Ray) (tri : Triangle),
      FP.le 0 ((rctR1 ray tri).mul (rctR2 ray tri)) = false →
      baryU (rctPos ray tri) tri = FP.nan →
      baryV (rctPos ray tri) tri = FP.nan →
      ray_cast_tri ray tri =
        some ⟨⟨FP.nan, FP.nan⟩,
          if (rctR2 ray tri).lt 0 = true then HitKind.Front else HitKind.Back,
          (rctR1 ray tri).abs⟩) := by
  have hb : ∀ (tri : Triangle) (p : Point),
      baryU p tri = FP.nan → baryV p tri = FP.nan →
      Barycentric.new p tri = some ⟨FP.nan, FP.nan⟩ := by
    intro tri p hu hv
    simp [Barycentric.new, hu, hv, FP.lt, FP.add]
  refine ⟨hb, ?_⟩
  intro ray tri hguard hu hv
  simp only [ray_cast_tri, hguard, Bool.false_eq_true, if_false,
    hb tri (rctPos ray tri) hu hv]

/-- The degenerate (zero-area) triangle of the C5 counterexample. -/
def c5tri : Triangle := Triangle.new ⟨0, 0, 0⟩ ⟨0, 0, 0⟩ ⟨0, 0, 0⟩

/-- The plane point of the C5 counterexample. -/
def c5p : Point := ⟨0, 0, 0⟩

/-- The ray of the C5 counterexample. -/
def c5ray : Ray := ⟨⟨0, 0, FP.num (-2)⟩, ⟨0, 0, 1⟩⟩

/-- Counterexample to **C5** as stated: on a degenerate triangle the
barycentric solve produces NaN, yet `Barycentric::new` does NOT return
`None` and `ray_cast_tri` does NOT report no-intersection — both return
`Some` carrying NaN. -/
theorem C5_counterexample :
    baryU c5p c5tri = FP.nan ∧ baryV c5p c5tri = FP.nan ∧
    Barycentric.new c5p c5tri ≠ none ∧
    ray_cast_tri c5ray c5tri ≠ none := by
  refine ⟨?_, ?_, ?_, ?_⟩ <;> with_unfolding_all decide

/-- The degenerate triangle of the C5 witness. -/
def c5wtri : Triangle := Triangle.new ⟨2, 2, 2⟩ ⟨2, 2, 2⟩ ⟨2, 2, 2⟩

/-- The ray of the C5 witness. -/
def c5wray : Ray := ⟨⟨0, 1, 0⟩, ⟨1, 0, 0⟩⟩

/-- Witness for C5: the amended theorem applied at a concrete degenerate
triangle. -/
theorem C5_nan_bary_accepted_witness :
    ray_cast_tri c5wray c5wtri =
      some ⟨⟨FP.nan, FP.nan⟩,
        if (rctR2 c5wray c5wtri).lt 0 = true then HitKind.Front else HitKind.Back,
        (rctR1 c5wray c5wtri).abs⟩ :=
  C5_nan_bary_accepted.2 c5wray c5wtri (by with_unfolding_all decide)
    (by with_unfolding_all decide) (by with_unfolding_all decide)

end C5Section

section C7Section

/-- Claim **C7 (amended)**: For unit vectors `i` and `n` along the same axis
(straight-on incidence, `i = n` or `i = -n`), `reflect(i, n)` returns
the ZERO vector — not `-i`: the source formula is
`-2 * (i - dot(i,n) * n)`, and at `i = ±n` the parenthesised difference
vanishes. -/
theorem C7_reflect_straight_on_zero (i n : Vector)
    (hnum : n.isNumV = true) (hunit : n.dot n = FP.num 1)
    (haxis : i = n ∨ i = n.neg) :
    reflect i n = ⟨FP.num 0, FP.num 0, FP.num 0⟩ := by
  obtain ⟨nx, ny, nz⟩ := n
  simp only [Vector.isNumV, Bool.and_eq_true] at hnum
  rcases FP.isNum_iff.1 hnum.1.1 with ⟨a, ha⟩
  rcases FP.isNum_iff.1 hnum.1.2 with ⟨b, hb⟩
  rcases FP.isNum_iff.1 hnum.2 with ⟨c, hc⟩
  subst ha hb hc
  simp only [Vector.dot, FP.mul, FP.add, FP.num.injEq] at hunit
  rcases haxis with hi | hi
  · subst hi
    simp only [reflect, Vector.dot, Vector.smul, Vector.sub,
      FP.mul, FP.add, FP.sub, FP.neg, Vector.mk.injEq, FP.num.injEq]
    refine ⟨?_, ?_, ?_⟩
    · linear_combination 2 * a * hunit
    · linear_combination 2 * b * hunit
    · linear_combination 2 * c * hunit
  · subst hi
    simp only [reflect, Vector.neg, Vector.dot, Vector.smul, Vector.sub,
      FP.mul, FP.add, FP.sub, FP.neg, Vector.mk.injEq, FP.num.injEq]
    refine ⟨?_, ?_, ?_⟩
    · linear_combination (-2) * a * hunit
    · linear_combination (-2) * b * hunit
    · linear_combination (-2) * c * hunit

/-- Counterexample to **C7** as stated: for the unit vector `(0,0,1)`
taken as both incident and normal (straight-on incidence along the same
axis), `reflect` returns the zero vector, which is NOT `-i`. -/
theorem C7_counterexample :
    Vector.dot ⟨0, 0, 1⟩ ⟨0, 0, 1⟩ = FP.num 1 ∧
    reflect ⟨0, 0, 1⟩ ⟨0, 0, 1⟩ = ⟨0, 0, 0⟩ ∧
    reflect ⟨0, 0, 1⟩ ⟨0, 0, 1⟩ ≠ Vector.neg ⟨0, 0, 1⟩ := by
  refine ⟨?_, ?_, ?_⟩ <;> with_unfolding_all decide

/-- Witness for C7: the amended theorem applied at the concrete unit
vector `(0,0,1)` against itself. -/
theorem C7_reflect_straight_on_zero_witness :
    reflect ⟨0, 0, 1⟩ ⟨0, 0, 1⟩ = ⟨FP.num 0, FP.num 0, FP.num 0⟩ :=
  C7_reflect_straight_on_zero ⟨0, 0, 1⟩ ⟨0, 0, 1⟩
    (by with_unfolding_all decide) (by with_unfolding_all decide) (Or.inl rfl)

end C7Section

section C6Section

/-- One builder operation on a `Transform`, as in the claim "built from
`Transform::eye()` by any finite sequence of translate, scale and
rotate operations" (`rotate` carries the evaluated `sin_cos` pair, see
`Transform.rotate`). -/
inductive TOp where
  | translate (v : Vector) : TOp
  | scale (v : Vector) : TOp
  | rotate (sin cos : FP) (axis : Vector) : TOp

/-- Apply one builder operation. -/
def TOp.apply (t : Transform) : TOp → Transform
  | .translate v => t.translate v
  | .scale v => t.scale v
  | .rotate s c a => t.rotate s c a

/-- The transform built from `Transform::eye()` by a sequence of
builder operations. -/
def buildTransform (ops : List TOp) : Transform :=
  ops.foldl TOp.apply Transform.eye

/-- Whether the operation is a `scale`. -/
def TOp.isScale : TOp → Bool
  | .scale _ => true
  | _ => false

/-- Whether the operation is a `translate` by an actual-number vector. -/
def TOp.isTranslateNum : TOp → Bool
  | .translate v => v.isNumV
  | _ => false

/-- Claim **C6 (amended)**: `Transform::inverse` negates the translation
without applying the inverted linear part to it, so
`T * T.inverse() = eye` holds when the sequence consists of translations
only (where the linear part stays the identity); it FAILS for any
rotation composed with a nonzero translation even though no non-uniform
scale is involved — see the counterexample. -/
theorem C6_translate_only_inverse (ops : List TOp)
    (h : ∀ op ∈ ops, op.isTranslateNum = true) :
    (buildTransform ops).mulT (buildTransform ops).inverse = Transform.eye := by
  have inv : ∀ (l : List TOp) (t : Transform), (∀ op ∈ l, op.isTranslateNum = true) →
      (t.r1 = ⟨1, 0, 0⟩ ∧ t.r2 = ⟨0, 1, 0⟩ ∧ t.r3 = ⟨0, 0, 1⟩ ∧ t.af.isNumV = true) →
      ((l.foldl TOp.apply t).r1 = ⟨1, 0, 0⟩ ∧ (l.foldl TOp.apply t).r2 = ⟨0, 1, 0⟩ ∧
       (l.foldl TOp.apply t).r3 = ⟨0, 0, 1⟩ ∧ (l.foldl TOp.apply t).af.isNumV = true) := by
    intro l
    induction l with
    | nil => intro t _ ht; exact ht
    | cons op rest ih =>
      intro t hops ht
      have hop := hops op (List.mem_cons_self op rest)
      have hrest : ∀ o ∈ rest, o.isTranslateNum = true := by
        intro o ho
        exact hops o (List.mem_cons_of_mem op ho)
      cases op with
      | translate v =>
        apply ih _ hrest
        obtain ⟨vx, vy, vz⟩ := v
        simp only [TOp.isTranslateNum, Vector.isNumV, Bool.and_eq_true] at hop
        rcases FP.isNum_iff.1 hop.1.1 with ⟨a, ha⟩
        rcases FP.isNum_iff.1 hop.1.2 with ⟨b, hb⟩
        rcases FP.isNum_iff.1 hop.2 with ⟨c, hc⟩
        simp only [Vector.isNumV, Bool.and_eq_true] at ht
        rcases FP.isNum_iff.1 ht.2.2.2.1.1 with ⟨x, hx⟩
        rcases FP.isNum_iff.1 ht.2.2.2.1.2 with ⟨y, hy⟩
        rcases FP.isNum_iff.1 ht.2.2.2.2 with ⟨z, hz⟩
        refine ⟨ht.1, ht.2.1, ht.2.2.1, ?_⟩
        subst ha hb hc
        simp [TOp.apply, Transform.translate, Vector.add, Vector.isNumV,
          FP.add, FP.isNum, hx, hy, hz]
      | scale v => simp [TOp.isTranslateNum] at hop
      | rotate s c a => simp [TOp.isTranslateNum] at hop
  have hT := inv ops Transform.eye h
    (by refine ⟨rfl, rfl, rfl, ?_⟩; with_unfolding_all decide)
  rcases hT with ⟨h1, h2, h3, haf⟩
  simp only [Vector.isNumV, Bool.and_eq_true] at haf
  rcases FP.isNum_iff.1 haf.1.1 with ⟨x, hx⟩
  rcases FP.isNum_iff.1 haf.1.2 with ⟨y, hy⟩
  rcases FP.isNum_iff.1 haf.2 with ⟨z, hz⟩
  have hT2 : buildTransform ops =
      ⟨⟨1, 0, 0⟩, ⟨0, 1, 0⟩, ⟨0, 0, 1⟩, ⟨FP.num x, FP.num y, FP.num z⟩⟩ := by
    calc buildTransform ops
        = ⟨(buildTransform ops).r1, (buildTransform ops).r2,
           (buildTransform ops).r3,
           ⟨(buildTransform ops).af.x, (buildTransform ops).af.y,
            (buildTransform ops).af.z⟩⟩ := rfl
      _ = _ := by
        simp only [buildTransform]
        rw [h1, h2, h3, hx, hy, hz]
  rw [hT2]
  simp only [Transform.mulT, Transform.inverse, Transform.to_cols,
    Transform.eye, Vector.dot, Vector.neg, FP.mul, FP.add, FP.sub, FP.neg,
    FP.div, Transform.mk.injEq, Vector.mk.injEq, FP.num.injEq]
  norm_num [fpOfNat, OfNat.ofNat]
  all_goals with_unfolding_all decide

/-- The C6 counterexample sequence: a quarter-turn rotation about the
`z` axis (`sin = 1`, `cos = 0`) followed by a unit translation along
`x`.  No scale — in particular no non-uniform scale — is applied. -/
def c6ops : List TOp := [TOp.rotate 1 0 ⟨0, 0, 1⟩, TOp.translate ⟨1, 0, 0⟩]

/-- Counterexample to **C6** as stated: the sequence `c6ops` applies no
(non-uniform) scale, yet `T * T.inverse()` has translation
`(1, -1, 0)` — far outside any floating tolerance of the identity. -/
theorem C6_counterexample :
    c6ops.all (fun op => !op.isScale) = true ∧
    ((buildTransform c6ops).mulT (buildTransform c6ops).inverse).af =
      ⟨1, FP.num (-1), 0⟩ ∧
    (buildTransform c6ops).mulT (buildTransform c6ops).inverse ≠ Transform.eye := by
  refine ⟨?_, ?_, ?_⟩ <;> with_unfolding_all decide

/-- Witness for C6: the amended theorem applied to the concrete
translation-only sequence `[translate (1, 2, 3)]`. -/
theorem C6_translate_only_inverse_witness :
    (buildTransform [TOp.translate ⟨1, 2, 3⟩]).mulT
      (buildTransform [TOp.translate ⟨1, 2, 3⟩]).inverse = Transform.eye :=
  C6_translate_only_inverse [TOp.translate ⟨1, 2, 3⟩]
    (by with_unfolding_all decide)

end C6Section

section C2Section

/-- Squared Euclidean distance between two points (exact-rational proxy
for "how far along the ray the intersection point lies"). -/
def sqDist (p q : Point) : FP :=
  (p.rel_from q).dot (p.rel_from q)

/-- The ray of the C2 failing input: origin at the world origin, unit
direction along `+z`. -/
def c2ray : Ray := ⟨⟨0, 0, 0⟩, ⟨0, 0, 1⟩⟩

/-- C2 triangle A: lies in the plane `z = 2`, perpendicular to the ray;
hit point `(0, 0, 2)` at true distance 2, plane offset `|d| = 2`. -/
def c2triA : Triangle :=
  Triangle.new ⟨FP.num (-10), FP.num (-10), 2⟩ ⟨0, 10, 2⟩ ⟨10, FP.num (-10), 2⟩

/-- C2 triangle B: oblique plane with unit normal `(4/5, 0, 3/5)`; hit
point `(0, 0, 3)` at true distance 3, but plane offset `|d| = 9/5 < 2`. -/
def c2triB : Triangle :=
  Triangle.new ⟨FP.num (-6), FP.num (-2), 11⟩ ⟨FP.num (-6), 6, 11⟩
    ⟨18, FP.num (-2), FP.num (-21)⟩

/-- The C2 tracer: `intersect` delegates to `ray_cast_tri`, `any_hit`
accepts everything, and `closest_hit` reports the chosen candidate's
stored `t` in the red channel (so the returned color identifies which
triangle won). -/
def c2rt : RayTracer Nat Nat Ray Barycentric where
  intersect := fun r t _ => ray_cast_tri r t
  any_hit := fun _ _ _ p _ => (true, p)
  miss := fun _ p => (⟨FP.num 99, 0, 0, 0⟩, p)
  closest_hit := fun _ _ i p _ => (⟨i.t, 0, 0, 0⟩, p)
  scene := ⟨[{ verts := [⟨FP.num (-10), FP.num (-10), 2⟩, ⟨0, 10, 2⟩,
                         ⟨10, FP.num (-10), 2⟩,
                         ⟨FP.num (-6), FP.num (-2), 11⟩, ⟨FP.num (-6), 6, 11⟩,
                         ⟨18, FP.num (-2), FP.num (-21)⟩]
               idxs := [(0, 1, 2), (3, 4, 5)]
               mat := 7
               obj2world := Transform.eye
               world2obj := Transform.eye }]⟩

/-- Claim **C2 (code bug)**: `trace` selects the accepted hit minimising the
stored `t = |d|`, the perpendicular offset of the ray origin from the
triangle's supporting plane — NOT the distance to the intersection
point along the ray.  On this scene both triangles are hit and accepted;
triangle A's hit point `(0,0,2)` is nearer (squared distance 4 < 9),
yet `trace` hands `closest_hit` the triangle-B candidate (stored
`t = 9/5 < 2`), whose hit point `(0,0,3)` is farther.  This contradicts
the in-source documentation of `t` ("Distance from ray origin to
triangle") and of `closest_hit` ("The ray hit the nearest object"). -/
theorem C2_trace_picks_farther_hit :
    ray_cast_tri c2ray c2triA =
      some ⟨⟨FP.num (1/2), FP.num (1/4)⟩, HitKind.Back, 2⟩ ∧
    ray_cast_tri c2ray c2triB =
      some ⟨⟨FP.num (1/4), FP.num (1/4)⟩, HitKind.Back, FP.num (9/5)⟩ ∧
    rctPos c2ray c2triA = ⟨0, 0, 2⟩ ∧
    rctPos c2ray c2triB = ⟨0, 0, 3⟩ ∧
    sqDist (rctPos c2ray c2triA) c2ray.o = 4 ∧
    sqDist (rctPos c2ray c2triB) c2ray.o = 9 ∧
    FP.lt 4 9 = true ∧
    (c2rt.trace c2ray 0).1 = ⟨FP.num (9/5), 0, 0, 0⟩ := by
  refine ⟨?_, ?_, ?_, ?_, ?_, ?_, ?_, ?_⟩ <;> with_unfolding_all decide

end C2Section

section C8Section

/-- A numeric value is strictly below `INFINITY` (the initial `tmax` of
`trace`). -/
theorem FP.lt_inf_of_isNum {a : FP} (h : a.isNum = true) :
    a.lt FP.inf = true := by
  rcases FP.isNum_iff.1 h with ⟨q, hq⟩
  subst hq
  rfl

/-- Claim **C8 (amended)**: `trace` on a scene with zero objects always
invokes `miss` and returns its result; and on a scene with exactly one
triangle, with `intersect` delegating to `ray_cast_tri`, a ray that
`ray_cast_tri` reports as hitting it with a numeric (non-NaN) stored
`t`, and `any_hit` accepting, `trace` invokes `closest_hit` with that
triangle, material and intersection.  (The numeric premise is needed:
a degenerate triangle is reported as hit with `t = NaN`, which fails
the `t < tmax` comparison, so `trace` misses — see the
counterexample.) -/
theorem C8_empty_misses_single_hits :
    (∀ (Material Payload RayT RayAttr : Type)
      (rt : RayTracer Material Payload RayT RayAttr),
      rt.scene.objs = [] → ∀ (ray : RayT) (p : Payload),
      rt.trace ray p = rt.miss ray p) ∧
    (∀ (Material Payload : Type) (mat : Material) (va vb vc : Point)
      (o2w w2o : Transform) (missf : Ray → Payload → Color × Payload)
      (chf : Ray → Triangle → Intersection Barycentric → Payload →
        Material → Color × Payload)
      (ray : Ray) (p : Payload) (isect : Intersection Barycentric),
      ray_cast_tri ray
        (Triangle.new (w2o.mulPoint va) (w2o.mulPoint vb) (w2o.mulPoint vc)) =
        some isect →
      isect.t.isNum = true →
      RayTracer.trace
        { intersect := fun r t _ => ray_cast_tri r t
          any_hit := fun _ _ _ q _ => (true, q)
          miss := missf
          closest_hit := chf
          scene := ⟨[⟨[va, vb, vc], [(0, 1, 2)], mat, o2w, w2o⟩]⟩ }
        ray p =
        chf ray
          (Triangle.new (w2o.mulPoint va) (w2o.mulPoint vb) (w2o.mulPoint vc))
          isect p mat) := by
  constructor
  · intro Material Payload RayT RayAttr rt hobjs ray p
    simp [RayTracer.trace, hobjs]
  · intro Material Payload mat va vb vc o2w w2o missf chf ray p isect hhit hnum
    simp [RayTracer.trace, traceObj, traceStep, hhit, tmaxOf,
      FP.lt_inf_of_isNum hnum]

/-- The degenerate triangle of the C8 counterexample (all three
vertices coincide). -/
def c8tri : Triangle := Triangle.new ⟨3, 3, 3⟩ ⟨3, 3, 3⟩ ⟨3, 3, 3⟩

/-- The ray of the C8 counterexample. -/
def c8ray : Ray := ⟨⟨0, 2, 0⟩, ⟨0, 0, 1⟩⟩

/-- The NaN-laden intersection `ray_cast_tri` reports for the C8
counterexample. -/
def c8isect : Intersection Barycentric := ⟨⟨FP.nan, FP.nan⟩, HitKind.Back, FP.nan⟩

/-- The C8 counterexample tracer: one degenerate triangle, `intersect`
delegating to `ray_cast_tri`, `any_hit` accepting everything, and
distinct `miss` / `closest_hit` colors. -/
def c8rt : RayTracer Nat Nat Ray Barycentric where
  intersect := fun r t _ => ray_cast_tri r t
  any_hit := fun _ _ _ p _ => (true, p)
  miss := fun _ p => (⟨1, 2, 3, 4⟩, p)
  closest_hit := fun _ _ _ p _ => (⟨5, 6, 7, 8⟩, p)
  scene := ⟨[{ verts := [⟨3, 3, 3⟩, ⟨3, 3, 3⟩, ⟨3, 3, 3⟩]
               idxs := [(0, 1, 2)]
               mat := 7
               obj2world := Transform.eye
               world2obj := Transform.eye }]⟩

/-- Counterexample to **C8** as stated: the single (degenerate) triangle
IS reported as hit by `ray_cast_tri` and `any_hit` accepts, yet `trace`
returns the `miss` color, not the `closest_hit` color. -/
theorem C8_counterexample :
    ray_cast_tri c8ray c8tri = some c8isect ∧
    c8rt.trace c8ray 0 = c8rt.miss c8ray 0 ∧
    c8rt.miss c8ray 0 ≠ c8rt.closest_hit c8ray c8tri c8isect 0 7 := by
  refine ⟨?_, ?_, ?_⟩ <;> with_unfolding_all decide

/-- The empty-scene tracer of the C8 witness. -/
def c8ert : RayTracer Nat Nat Nat Nat where
  intersect := fun _ _ _ => none
  any_hit := fun _ _ _ p _ => (true, p)
  miss := fun _ p => (⟨0, 0, 0, 0⟩, p)
  closest_hit := fun _ _ _ p _ => (⟨1, 1, 1, 1⟩, p)
  scene := ⟨[]⟩

/-- Witness for C8: the amended theorem applied to a concrete empty
scene and to a concrete one-triangle scene hit front-on. -/
theorem C8_empty_misses_single_hits_witness :
    c8ert.trace 0 0 = c8ert.miss 0 0 ∧
    RayTracer.trace
      { intersect := fun r t _ => ray_cast_tri r t
        any_hit := fun _ _ _ q _ => (true, q)
        miss := fun _ (p : Nat) => (⟨0, 0, 0, 0⟩, p)
        closest_hit := fun _ _ _ p _ => (⟨1, 1, 1, 1⟩, p)
        scene := ⟨[⟨[⟨FP.num (-1), FP.num (-1), 1⟩, ⟨1, FP.num (-1), 1⟩,
                     ⟨0, 1, 1⟩], [(0, 1, 2)], 7, Transform.eye, Transform.eye⟩]⟩ }
      ⟨⟨0, 0, 0⟩, ⟨0, 0, 1⟩⟩ 0 =
      (⟨1, 1, 1, 1⟩, 0) :=
  ⟨C8_empty_misses_single_hits.1 Nat Nat Nat Nat c8ert rfl 0 0,
   by
    rw [C8_empty_misses_single_hits.2 Nat Nat 7
      ⟨FP.num (-1), FP.num (-1), 1⟩ ⟨1, FP.num (-1), 1⟩ ⟨0, 1, 1⟩
      Transform.eye Transform.eye
      (fun _ p => (⟨0, 0, 0, 0⟩, p)) (fun _ _ _ p _ => (⟨1, 1, 1, 1⟩, p))
      ⟨⟨0, 0, 0⟩, ⟨0, 0, 1⟩⟩ 0
      ⟨⟨FP.num (1/4), FP.num (1/2)⟩, HitKind.Front, 1⟩
      (by with_unfolding_all decide) (by with_unfolding_all decide)]⟩

end C8Section

section C1Lemmas

variable {Material Payload RayT RayAttr : Type}

/-- The inner loop of `trace` over one object's index triples computes
the `selStep` fold of the accepted-candidate list over the running best,
with an identically threaded payload. -/
theorem foldIdxs_eq_selFold (rt : RayTracer Material Payload RayT RayAttr)
    (ray : RayT) (mat : Material) (verts : List Point) :
    ∀ (idxs : List (Nat × Nat × Nat)) (b : Option (Cand Material RayAttr)) (p : Payload),
      idxs.foldl (traceStep rt ray mat verts) (b, p) =
        ((candsOfIdxs rt ray mat verts p idxs).1.foldl selStep b,
         (candsOfIdxs rt ray mat verts p idxs).2) := by
  intro idxs
  induction idxs with
  | nil =>
    intro b p
    rfl
  | cons idx rest ih =>
    intro b p
    simp only [List.foldl_cons, candsOfIdxs]
    rcases hint : rt.intersect ray
        (Triangle.new (verts.getD idx.1 dfltPoint) (verts.getD idx.2.1 dfltPoint)
          (verts.getD idx.2.2 dfltPoint)) mat with _ | x
    · simp only [traceStep, hint]
      exact ih b p
    · simp only [traceStep, hint]
      rcases hah : rt.any_hit ray
          (Triangle.new (verts.getD idx.1 dfltPoint) (verts.getD idx.2.1 dfltPoint)
            (verts.getD idx.2.2 dfltPoint)) x p mat with ⟨ok, p2⟩
      cases ok with
      | false =>
        simp only [Bool.false_eq_true, if_false]
        exact ih b p2
      | true =>
        simp only [if_true]
        by_cases hlt : x.t.lt (tmaxOf b) = true
        · simp only [hlt, if_true, List.foldl_cons, selStep]
          exact ih _ p2
        · simp only [Bool.not_eq_true] at hlt
          simp only [hlt, Bool.false_eq_true, if_false, List.foldl_cons, selStep]
          exact ih b p2

/-- The outer loop of `trace` over the scene's objects computes the
`selStep` fold of the full accepted-candidate list. -/
theorem foldObjs_eq_selFold (rt : RayTracer Material Payload RayT RayAttr)
    (ray : RayT) :
    ∀ (objs : List (Object Material)) (b : Option (Cand Material RayAttr)) (p : Payload),
      objs.foldl (traceObj rt ray) (b, p) =
        ((candsOfObjs rt ray p objs).1.foldl selStep b,
         (candsOfObjs rt ray p objs).2) := by
  intro objs
  induction objs with
  | nil =>
    intro b p
    rfl
  | cons obj rest ih =>
    intro b p
    simp only [List.foldl_cons, candsOfObjs, traceObj]
    rw [foldIdxs_eq_selFold rt ray obj.mat _ obj.idxs b p]
    rw [ih]
    rw [List.foldl_append]

/-- `RayTracer::trace` dispatches on the `selStep` fold of the accepted
candidates: `closest_hit` on the selected candidate with the final
payload if one was selected, `miss` with the final payload otherwise. -/
theorem trace_eq_selFold_dispatch (rt : RayTracer Material Payload RayT RayAttr)
    (ray : RayT) (p : Payload) :
    rt.trace ray p =
      match (acceptedCandidates rt ray p).1.foldl selStep none with
      | some c => rt.closest_hit ray c.1 c.2.2 (acceptedCandidates rt ray p).2 c.2.1
      | none => rt.miss ray (acceptedCandidates rt ray p).2 := by
  simp only [RayTracer.trace, acceptedCandidates]
  rw [foldObjs_eq_selFold rt ray rt.scene.objs none p]

end C1Lemmas

section C1Selection

variable {Material Payload RayT RayAttr : Type}

/-- Strict `f32` comparison of numbers is irreflexive. -/
theorem FP.lt_num_irrefl (q : ℚ) : (FP.num q).lt (FP.num q) = false := by
  simp [FP.lt]

/-- On actual numbers, failure of `a < b` and success of `c < b` force
`c < a` (used for the minimum-tracking argument; `b` may be any `f32`
value, including the initial infinite `tmax`). -/
theorem FP.lt_trans_not_lt {qa qc : ℚ} {b : FP}
    (hna : (FP.num qa).lt b = false) (hnc : (FP.num qc).lt b = true) :
    (FP.num qc).lt (FP.num qa) = true := by
  cases b <;> simp_all [FP.lt] <;> linarith

/-- On actual numbers, `a < b` and `b < m` (any `f32` bound `m`) give
`a < m`. -/
theorem FP.lt_trans_num {qa qb : ℚ} {m : FP}
    (hab : (FP.num qa).lt (FP.num qb) = true) (hbm : (FP.num qb).lt m = true) :
    (FP.num qa).lt m = true := by
  cases m <;> simp_all [FP.lt] <;> linarith

/-- The fold of `trace`'s candidate-selection step over the accepted
candidates, started from a running best `b`, yields a result below every
candidate (no candidate's `t` is strictly less than the result's
`tmax`), and is either `b` itself or the candidate at the least index
whose `t` beats both `b` and every earlier candidate strictly — the
first-encountered minimum.  All candidates' `t` are assumed to be
actual numbers. -/
theorem selFold_spec (cs : List (Cand Material RayAttr)) :
    ∀ (b : Option (Cand Material RayAttr)),
      (∀ c ∈ cs, c.2.2.t.isNum = true) →
      (∀ c ∈ cs, c.2.2.t.lt (tmaxOf (cs.foldl selStep b)) = false) ∧
      (cs.foldl selStep b = b ∨
        ∃ (i : Nat) (h : i < cs.length),
          cs.foldl selStep b = some (cs.get ⟨i, h⟩) ∧
          (cs.get ⟨i, h⟩).2.2.t.lt (tmaxOf b) = true ∧
          ∀ (j : Nat) (hj : j < cs.length), j < i →
            (cs.get ⟨i, h⟩).2.2.t.lt ((cs.get ⟨j, hj⟩).2.2.t) = true) := by
  induction cs with
  | nil =>
    intro b _
    exact ⟨by simp, Or.inl rfl⟩
  | cons c cs ih =>
    intro b hnum
    have hc : c.2.2.t.isNum = true := hnum c (List.mem_cons_self c cs)
    have hnum' : ∀ c' ∈ cs, c'.2.2.t.isNum = true := by
      intro c' hc'
      exact hnum c' (List.mem_cons_of_mem c hc')
    rcases FP.isNum_iff.1 hc with ⟨qc, hqc⟩
    obtain ⟨A', B'⟩ := ih (selStep b c) hnum'
    have hfold : (c :: cs).foldl selStep b = cs.foldl selStep (selStep b c) := rfl
    by_cases hsel : c.2.2.t.lt (tmaxOf b) = true
    · -- the head replaces the running best
      have hb' : selStep b c = some c := by simp [selStep, hsel]
      have htmaxb' : tmaxOf (selStep b c) = c.2.2.t := by rw [hb']; rfl
      constructor
      · intro c' hc'
        rcases List.mem_cons.1 hc' with rfl | hmem
        · -- the head itself is not strictly below the result
          rcases B' with hr | ⟨i, h, hr, hlt', _⟩
          · rw [hfold, hr, htmaxb', hqc, FP.lt_num_irrefl]
          · have hci : (cs.get ⟨i, h⟩).2.2.t.isNum = true :=
              hnum' _ (List.get_mem cs i h)
            rcases FP.isNum_iff.1 hci with ⟨qi, hqi⟩
            rw [htmaxb', hqc, hqi] at hlt'
            rw [hfold, hr]
            show c'.2.2.t.lt (cs.get ⟨i, h⟩).2.2.t = false
            rw [hqc, hqi]
            simp only [FP.lt] at hlt' ⊢
            simp at hlt' ⊢
            linarith
        · rw [hfold]
          exact A' c' hmem
      · rcases B' with hr | ⟨i, h, hr, hlt', hfirst⟩
        · refine Or.inr ⟨0, by simp, ?_, hsel, ?_⟩
          · rw [hfold, hr, hb']
            rfl
          · intro j hj hji
            omega
        · have hci : (cs.get ⟨i, h⟩).2.2.t.isNum = true :=
            hnum' _ (List.get_mem cs i h)
          rcases FP.isNum_iff.1 hci with ⟨qi, hqi⟩
          have hlt'' : (cs.get ⟨i, h⟩).2.2.t.lt c.2.2.t = true := by
            rw [htmaxb'] at hlt'
            exact hlt'
          refine Or.inr ⟨i + 1, by simpa using Nat.succ_lt_succ h, ?_, ?_, ?_⟩
          · rw [hfold, hr]
            rfl
          · show (cs.get ⟨i, h⟩).2.2.t.lt (tmaxOf b) = true
            rw [hqi]
            rw [hqi, hqc] at hlt''
            exact FP.lt_trans_num hlt'' (hqc ▸ hsel)
          · intro j hj hji
            cases j with
            | zero => exact hlt''
            | succ k =>
              have hk : k < cs.length := by simpa using Nat.lt_of_succ_lt_succ hj
              exact hfirst k hk (Nat.lt_of_succ_lt_succ hji)
    · -- the head is not accepted as new best
      have hselF : c.2.2.t.lt (tmaxOf b) = false := by
        simpa using hsel
      have hb' : selStep b c = b := by simp [selStep, hselF]
      rw [hb'] at A' B'
      constructor
      · intro c' hc'
        rcases List.mem_cons.1 hc' with rfl | hmem
        · rcases B' with hr | ⟨i, h, hr, hlt', _⟩
          · rw [hfold, hb', hr]
            exact hselF
          · have hci : (cs.get ⟨i, h⟩).2.2.t.isNum = true :=
              hnum' _ (List.get_mem cs i h)
            rcases FP.isNum_iff.1 hci with ⟨qi, hqi⟩
            rw [hfold, hb', hr]
            show c'.2.2.t.lt (cs.get ⟨i, h⟩).2.2.t = false
            rw [hqc, hqi]
            have := FP.lt_trans_not_lt (hqc ▸ hselF) (hqi ▸ hlt')
            cases hlt2 : (FP.num qc).lt (FP.num qi) with
            | false => rfl
            | true =>
              simp only [FP.lt] at this hlt2
              simp at this hlt2
              linarith
        · rw [hfold, hb']
          exact A' c' hmem
      · rcases B' with hr | ⟨i, h, hr, hlt', hfirst⟩
        · exact Or.inl (by rw [hfold, hb', hr])
        · have hci : (cs.get ⟨i, h⟩).2.2.t.isNum = true :=
            hnum' _ (List.get_mem cs i h)
          rcases FP.isNum_iff.1 hci with ⟨qi, hqi⟩
          refine Or.inr ⟨i + 1, by simpa using Nat.succ_lt_succ h, ?_, hlt', ?_⟩
          · rw [hfold, hb', hr]
            rfl
          · intro j hj hji
            cases j with
            | zero =>
              show (cs.get ⟨i, h⟩).2.2.t.lt c.2.2.t = true
              rw [hqi, hqc]
              exact FP.lt_trans_not_lt (hqc ▸ hselF) (hqi ▸ hlt')
            | succ k =>
              have hk : k < cs.length := by simpa using Nat.lt_of_succ_lt_succ hj
              exact hfirst k hk (Nat.lt_of_succ_lt_succ hji)

end C1Selection

section C1Section

/-- On actual numbers, failure of `b < a` gives `a <= b`. -/
theorem FP.le_of_not_lt_num {qa : ℚ} {b : FP} (hb : b.isNum = true)
    (h : b.lt (FP.num qa) = false) : FP.le (FP.num qa) b = true := by
  rcases FP.isNum_iff.1 hb with ⟨qb, rfl⟩
  simp only [FP.lt] at h
  simp only [FP.le]
  simp at h ⊢
  linarith

/-- Claim **C1 (amended)**: For every scene, ray and callbacks, `trace` scans
every object and every triangle (`acceptedCandidates` is defined by
exactly that exhaustive iteration) and collects the intersections
reported by `intersect` and accepted by `any_hit`, in iteration order,
threading the payload through the same `any_hit` calls.  Provided every
accepted candidate's stored `t` is an actual number (not NaN): if no
candidate exists, `trace` invokes `miss` with the final payload and
returns its result; otherwise it invokes `closest_hit` on the candidate
with the minimum stored `t`, ties broken in favor of the
first-encountered candidate — the chosen candidate's `t` is `<=` every
candidate's `t` and strictly `<` that of every earlier candidate.
(The numeric premise is forced by the counterexample: an accepted
candidate carrying `t = NaN` fails every `t < tmax` comparison and is
never selected, so a scene whose only candidate has NaN `t` misses.) -/
theorem C1_exhaustive_scan_min_dispatch
    {Material Payload RayT RayAttr : Type}
    (rt : RayTracer Material Payload RayT RayAttr) (ray : RayT) (p : Payload)
    (hnum : ∀ c ∈ (acceptedCandidates rt ray p).1, c.2.2.t.isNum = true) :
    ((acceptedCandidates rt ray p).1 = [] →
      rt.trace ray p = rt.miss ray (acceptedCandidates rt ray p).2) ∧
    ((acceptedCandidates rt ray p).1 ≠ [] →
      ∃ (i : Nat) (h : i < (acceptedCandidates rt ray p).1.length),
        rt.trace ray p =
          rt.closest_hit ray ((acceptedCandidates rt ray p).1.get ⟨i, h⟩).1
            ((acceptedCandidates rt ray p).1.get ⟨i, h⟩).2.2
            (acceptedCandidates rt ray p).2
            ((acceptedCandidates rt ray p).1.get ⟨i, h⟩).2.1 ∧
        (∀ c ∈ (acceptedCandidates rt ray p).1,
          FP.le ((acceptedCandidates rt ray p).1.get ⟨i, h⟩).2.2.t c.2.2.t = true) ∧
        (∀ (j : Nat) (hj : j < (acceptedCandidates rt ray p).1.length), j < i →
          FP.lt ((acceptedCandidates rt ray p).1.get ⟨i, h⟩).2.2.t
            ((acceptedCandidates rt ray p).1.get ⟨j, hj⟩).2.2.t = true)) := by
  obtain ⟨A, B⟩ := selFold_spec (acceptedCandidates rt ray p).1 none hnum
  have hdisp := trace_eq_selFold_dispatch rt ray p
  constructor
  · intro hempty
    rw [hdisp, hempty]
    rfl
  · intro hne
    rcases B with hr | ⟨i, h, hr, _, hfirst⟩
    · -- the fold cannot come back empty on a nonempty numeric list
      exfalso
      rcases List.exists_mem_of_ne_nil _ hne with ⟨c, hcmem⟩
      have := A c hcmem
      rw [hr] at this
      simp only [tmaxOf] at this
      rw [FP.lt_inf_of_isNum (hnum c hcmem)] at this
      exact Bool.true_eq_false.mp this
    · refine ⟨i, h, ?_, ?_, hfirst⟩
      · rw [hdisp, hr]
      · intro c hcmem
        have hA := A c hcmem
        rw [hr] at hA
        have hi : ((acceptedCandidates rt ray p).1.get ⟨i, h⟩).2.2.t.isNum = true :=
          hnum _ (List.get_mem _ i h)
        rcases FP.isNum_iff.1 hi with ⟨qi, hqi⟩
        rw [hqi]
        apply FP.le_of_not_lt_num (hnum c hcmem)
        rw [← hqi]
        exact hA

/-- The degenerate triangle of the C1 counterexample. -/
def c1tri : Triangle := Triangle.new ⟨5, 5, 5⟩ ⟨5, 5, 5⟩ ⟨5, 5, 5⟩

/-- The NaN-laden intersection reported for `c1tri`. -/
def c1isect : Intersection Barycentric := ⟨⟨FP.nan, FP.nan⟩, HitKind.Back, FP.nan⟩

/-- The ray of the C1 counterexample. -/
def c1ray : Ray := ⟨⟨1, 1, 0⟩, ⟨0, 0, 1⟩⟩

/-- The C1 counterexample tracer: a single degenerate triangle,
`intersect` delegating to `ray_cast_tri`, `any_hit` accepting
everything, distinct `miss` / `closest_hit` colors. -/
def c1rt : RayTracer Nat Nat Ray Barycentric where
  intersect := fun r t _ => ray_cast_tri r t
  any_hit := fun _ _ _ p _ => (true, p)
  miss := fun _ p => (⟨9, 9, 9, 9⟩, p)
  closest_hit := fun _ _ _ p _ => (⟨4, 4, 4, 4⟩, p)
  scene := ⟨[{ verts := [⟨5, 5, 5⟩, ⟨5, 5, 5⟩, ⟨5, 5, 5⟩]
               idxs := [(0, 1, 2)]
               mat := 7
               obj2world := Transform.eye
               world2obj := Transform.eye }]⟩

/-- Counterexample to **C1** as stated: an accepted candidate exists
(`intersect` reported a hit and `any_hit` accepted it), yet `trace`
invokes `miss`, not `closest_hit` — the candidate's stored `t` is NaN,
which fails the `t < tmax` comparison against the initial `INFINITY`,
so it is never selected. -/
theorem C1_counterexample :
    (acceptedCandidates c1rt c1ray 0).1 = [(c1tri, 7, c1isect)] ∧
    c1rt.trace c1ray 0 = c1rt.miss c1ray 0 ∧
    c1rt.miss c1ray 0 ≠ c1rt.closest_hit c1ray c1tri c1isect 0 7 := by
  refine ⟨?_, ?_, ?_⟩ <;> with_unfolding_all decide

/-- The ray of the C1 witness. -/
def c1wray : Ray := ⟨⟨0, 0, 0⟩, ⟨0, 0, 1⟩⟩

/-- The C1 witness tracer: two triangles (stored `t` values `2` and
`9/5`), `intersect` delegating to `ray_cast_tri`, `any_hit` accepting
everything. -/
def c1wrt : RayTracer Nat Nat Ray Barycentric where
  intersect := fun r t _ => ray_cast_tri r t
  any_hit := fun _ _ _ p _ => (true, p)
  miss := fun _ p => (⟨0, 0, 0, 0⟩, p)
  closest_hit := fun _ _ i p _ => (⟨i.t, 1, 0, 0⟩, p)
  scene := ⟨[{ verts := [⟨FP.num (-10), FP.num (-10), 2⟩, ⟨0, 10, 2⟩,
                         ⟨10, FP.num (-10), 2⟩,
                         ⟨FP.num (-6), FP.num (-2), 11⟩, ⟨FP.num (-6), 6, 11⟩,
                         ⟨18, FP.num (-2), FP.num (-21)⟩]
               idxs := [(0, 1, 2), (3, 4, 5)]
               mat := 3
               obj2world := Transform.eye
               world2obj := Transform.eye }]⟩

/-- Witness for C1: the amended theorem applied to a concrete
two-candidate scene (stored `t` values `2` then `9/5`; the second,
smaller one must win). -/
theorem C1_exhaustive_scan_min_dispatch_witness :
    (acceptedCandidates c1wrt c1wray 0).1 ≠ [] ∧
    (∃ (i : Nat) (h : i < (acceptedCandidates c1wrt c1wray 0).1.length),
      c1wrt.trace c1wray 0 =
        c1wrt.closest_hit c1wray ((acceptedCandidates c1wrt c1wray 0).1.get ⟨i, h⟩).1
          ((acceptedCandidates c1wrt c1wray 0).1.get ⟨i, h⟩).2.2
          (acceptedCandidates c1wrt c1wray 0).2
          ((acceptedCandidates c1wrt c1wray 0).1.get ⟨i, h⟩).2.1 ∧
      (∀ c ∈ (acceptedCandidates c1wrt c1wray 0).1,
        FP.le ((acceptedCandidates c1wrt c1wray 0).1.get ⟨i, h⟩).2.2.t c.2.2.t = true) ∧
      (∀ (j : Nat) (hj : j < (acceptedCandidates c1wrt c1wray 0).1.length), j < i →
        FP.lt ((acceptedCandidates c1wrt c1wray 0).1.get ⟨i, h⟩).2.2.t
          ((acceptedCandidates c1wrt c1wray 0).1.get ⟨j, hj⟩).2.2.t = true)) :=
  ⟨by with_unfolding_all decide,
   (C1_exhaustive_scan_min_dispatch c1wrt c1wray 0
      (by with_unfolding_all decide)).2 (by with_unfolding_all decide)⟩

end C1Section

section C9Section

/-- `Rat.floor` agrees with the mathematical floor. -/
theorem ratFloor_eq_intFloor (a : ℚ) : a.floor = ⌊a⌋ := by
  rw [Rat.floor_def' a, Rat.floor_def]

/-- The truncating cast of a nonnegative integral float is the integer
itself. -/
theorem FP.toUsize_natCast (n : Nat) : FP.toUsize (FP.num ((n : ℕ) : ℚ)) = n := by
  simp only [FP.toUsize]
  split
  · rename_i h
    have h0 : ((n : ℕ) : ℚ) ≤ 0 := h
    have hn : n = 0 := by exact_mod_cast le_antisymm h0 (by positivity)
    omega
  · rw [ratFloor_eq_intFloor]
    rw [Int.floor_natCast]
    exact Int.toNat_natCast n

/-- Partial evaluation of `CubeSampler::sample` at the exact `+z`
direction `(0, 0, 1)`: the axis selection picks index 2 with positive
sign, face image 4, and face-local coordinates `(0, 0)`, so both pixel
coordinates reduce to `0.5 * (dimension - 1)`. -/
theorem sample_pz_eq (imgs : List Image) :
    CubeSampler.sample imgs ⟨0, 0, 1⟩ =
      match imgs.get? 4 with
      | none => none
      | some img =>
        img.load_px
          (FP.toUsize ((FP.num ((1:ℚ)/2)).mul (FP.num ((img.width - 1 : ℕ) : ℚ))))
          (FP.toUsize ((FP.num ((1:ℚ)/2)).mul (FP.num ((img.height - 1 : ℕ) : ℚ)))) := by
  with_unfolding_all rfl

/-- Claim **C9**: For the normalized direction exactly along `+z` — components
`(0, 0, 1)`, no secondary components — `CubeSampler::sample` selects the
face image at index 4 and loads that face's center pixel: with odd face
dimensions `w = 2a + 1`, `h = 2b + 1`, it loads pixel `(a, b)`. -/
theorem C9_plus_z_selects_face4_center (imgs : List Image) (img4 : Image)
    (a b : Nat) (hlen : imgs.length = 6) (h4 : imgs.get? 4 = some img4)
    (hw : img4.w = 2 * a + 1) (hh : img4.h = 2 * b + 1) :
    CubeSampler.sample imgs ⟨0, 0, 1⟩ = img4.load_px a b := by
  rw [sample_pz_eq, h4]
  show img4.load_px
      (FP.toUsize ((FP.num ((1:ℚ)/2)).mul (FP.num ((img4.width - 1 : ℕ) : ℚ))))
      (FP.toUsize ((FP.num ((1:ℚ)/2)).mul (FP.num ((img4.height - 1 : ℕ) : ℚ)))) =
    img4.load_px a b
  have harg : ∀ (d k : Nat), d = 2 * k + 1 →
      FP.toUsize ((FP.num ((1:ℚ)/2)).mul (FP.num ((d - 1 : ℕ) : ℚ))) = k := by
    intro d k hd
    subst hd
    have h1 : (2 * k + 1 - 1 : ℕ) = 2 * k := by omega
    rw [h1]
    have h2 : ((1:ℚ)/2) * ((2 * k : ℕ) : ℚ) = ((k : ℕ) : ℚ) := by
      push_cast
      ring
    simp only [FP.mul, h2]
    exact FP.toUsize_natCast k
  rw [show Image.width img4 = img4.w from rfl, show Image.height img4 = img4.h from rfl]
  rw [harg img4.w a hw, harg img4.h b hh]

/-- The six face images of the C9 witness: 3x3 faces whose buffers are
numbered so that each pixel is identifiable; face 4's center pixel
(offset `1 + 3 * 1 = 4`) holds green channel value 104. -/
def c9imgs : List Image :=
  (List.range 6).map (fun f =>
    ⟨(List.range 9).map (fun k => ⟨FP.num f, FP.num (100 + k), 0, 1⟩), 3, 3⟩)

/-- Witness for C9: the theorem applied to six concrete 3x3 face images;
the sampled pixel is face 4's center pixel `(1, 1)`. -/
theorem C9_plus_z_selects_face4_center_witness :
    CubeSampler.sample c9imgs ⟨0, 0, 1⟩ =
      ((List.range 9).map (fun k => (⟨FP.num 4, FP.num (100 + k), 0, 1⟩ : Color))
        |> fun buf => (⟨buf, 3, 3⟩ : Image)).load_px 1 1 ∧
    CubeSampler.sample c9imgs ⟨0, 0, 1⟩ = some ⟨FP.num 4, FP.num 104, 0, 1⟩ := by
  constructor
  · exact C9_plus_z_selects_face4_center c9imgs _ 1 1
      (by with_unfolding_all decide) (by with_unfolding_all decide)
      (by with_unfolding_all decide) (by with_unfolding_all decide)
  · rw [C9_plus_z_selects_face4_center c9imgs
      ((List.range 9).map (fun k => (⟨FP.num 4, FP.num (100 + k), 0, 1⟩ : Color))
        |> fun buf => (⟨buf, 3, 3⟩ : Image)) 1 1
      (by with_unfolding_all decide) (by with_unfolding_all decide)
      (by with_unfolding_all decide) (by with_unfolding_all decide)]
    with_unfolding_all decide

end C9Section

section C10Section

/-- Evaluation of the axis selection of `CubeSampler::sample` on a
vector of actual numbers, in terms of rational comparisons of the
absolute components (later indices win ties, as with
`Iterator::max_by`). -/
theorem maxBy3_eval (qx qy qz : ℚ) :
    maxBy3 (fun i =>
      (if i = 0 then FP.num qx else if i = 1 then FP.num qy else FP.num qz).abs) =
      if |qy| < |qx| then (if |qz| < |qx| then 0 else 2)
      else (if |qz| < |qy| then 1 else 2) := by
  simp only [maxBy3, FP.abs, FP.pcmp]
  norm_num
  split_ifs at * <;> simp_all <;> try linarith
  all_goals split_ifs at * <;> simp_all

/-- The truncating cast of a number at most `w - 1` lands strictly below
`w`. -/
theorem FP.toUsize_lt_of_le (r : ℚ) (w : Nat) (hw : 1 ≤ w)
    (hr : r ≤ ((w - 1 : ℕ) : ℚ)) : FP.toUsize (FP.num r) < w := by
  simp only [FP.toUsize]
  split
  · omega
  · rename_i h
    rw [ratFloor_eq_intFloor]
    have h1 : ⌊r⌋ ≤ ⌊((w - 1 : ℕ) : ℚ)⌋ := Int.floor_le_floor hr
    rw [Int.floor_natCast] at h1
    omega

/-- Core bound: `max(0, min-clamped value) * (w-1)` truncates into
`[0, w)`. -/
theorem clamp_core (a : ℚ) (w : Nat) (hw : 1 ≤ w) :
    FP.toUsize ((((FP.num a).fmax 0).fmin 1).mul (FP.num ((w - 1 : ℕ) : ℚ))) < w := by
  have h3 : (FP.num a).fmax 0 = FP.num (if a < 0 then 0 else a) := by
    show FP.fmax (FP.num a) (FP.num ((0 : ℕ) : ℚ)) = _
    simp only [FP.fmax, FP.lt]
    norm_num
    split_ifs <;> simp_all
  rw [h3]
  have h4 : ∀ b : ℚ, (FP.num b).fmin 1 = FP.num (if 1 < b then 1 else b) := by
    intro b
    show FP.fmin (FP.num b) (FP.num ((1 : ℕ) : ℚ)) = _
    simp only [FP.fmin, FP.lt]
    norm_num
    split_ifs <;> simp_all <;> linarith
  rw [h4]
  rw [show ∀ b c : ℚ, (FP.num b).mul (FP.num c) = FP.num (b * c) from fun _ _ => rfl]
  apply FP.toUsize_lt_of_le _ _ hw
  have hnn : (0 : ℚ) ≤ ((w - 1 : ℕ) : ℚ) := by positivity
  split_ifs with h1 h2 h2 <;> nlinarith [hnn]

/-- The clamped pixel coordinate `(0.5 * (q + 1)).max(0).min(1) * (w-1)`
truncates into `[0, w)` for every rational `q` and width `w >= 1`. -/
theorem clamp_px_lt (q : ℚ) (w : Nat) (hw : 1 ≤ w) :
    FP.toUsize (((((FP.num ((1:ℚ)/2)).mul ((FP.num q).add 1)).fmax 0).fmin 1).mul
      (FP.num ((w - 1 : ℕ) : ℚ))) < w := by
  have h1 : (FP.num q).add 1 = FP.num (q + 1) := by
    show FP.add (FP.num q) (FP.num ((1 : ℕ) : ℚ)) = FP.num (q + 1)
    norm_num [FP.add]
  rw [h1]
  rw [show (FP.num ((1:ℚ)/2)).mul (FP.num (q + 1)) = FP.num ((1:ℚ)/2 * (q + 1)) from rfl]
  exact clamp_core _ w hw

/-- A pixel load at in-range coordinates from a fully allocated buffer
succeeds. -/
theorem load_px_some (img : Image) (x y : Nat) (hx : x < img.w) (hy : y < img.h)
    (hbuf : img.buf.length = img.w * img.h) : ∃ c, img.load_px x y = some c := by
  have hoff : img.coords2offset x y < img.buf.length := by
    simp only [Image.coords2offset, hbuf]
    have h1 : x + img.w * y < img.w * (y + 1) := by
      simp only [Nat.mul_succ]
      omega
    have h2 : img.w * (y + 1) ≤ img.w * img.h := Nat.mul_le_mul_left _ hy
    omega
  exact ⟨img.buf.get ⟨_, hoff⟩, by simp [Image.load_px, List.get?_eq_get hoff]⟩

/-- Division of actual numbers by a nonzero actual number stays an
actual number. -/
theorem FP.div_num_num (a b : ℚ) (hb : b ≠ 0) :
    (FP.num a).div (FP.num b) = FP.num (a / b) := by
  simp [FP.div, hb]

/-- The tail of `CubeSampler::sample` after face selection: whichever of
the six face images is selected, the pixel computation lands in bounds
and the load succeeds, for any numeric face-local numerators and a
nonzero numeric divisor. -/
theorem sample_tail_some (imgs : List Image) (face : Nat) (qu qv qm : ℚ)
    (hface : face < 6) (hlen : imgs.length = 6)
    (himg : ∀ img ∈ imgs, 1 ≤ img.w ∧ 1 ≤ img.h ∧ img.buf.length = img.w * img.h)
    (hm : qm ≠ 0) :
    ∃ c, (match imgs.get? face with
          | none => none
          | some img =>
            img.load_px
              (FP.toUsize (((((FP.num ((1:ℚ)/2)).mul
                (((FP.num qu).div (FP.num qm)).add 1)).fmax 0).fmin 1).mul
                (FP.num ((img.width - 1 : ℕ) : ℚ))))
              (FP.toUsize (((((FP.num ((1:ℚ)/2)).mul
                (((FP.num qv).div (FP.num qm)).add 1)).fmax 0).fmin 1).mul
                (FP.num ((img.height - 1 : ℕ) : ℚ))))) = some c := by
  have hf' : face < imgs.length := by omega
  rw [List.get?_eq_get hf']
  obtain ⟨hw, hh, hbuf⟩ := himg _ (List.get_mem imgs face hf')
  rw [FP.div_num_num qu qm hm, FP.div_num_num qv qm hm]
  exact load_px_some _ _ _ (clamp_px_lt _ _ hw) (clamp_px_lt _ _ hh) hbuf

/-- The positivity test of the selected component, as a rational
proposition. -/
theorem FP.lt_zero_num (q : ℚ) : FP.lt 0 (FP.num q) = decide (0 < q) := by
  show FP.lt (FP.num ((0 : ℕ) : ℚ)) (FP.num q) = _
  simp [FP.lt]

/-- Claim **C10**: For every direction vector of actual numbers whose
components are not all zero (so the largest-magnitude component, the
one the sampler divides by, is finite and nonzero) and every list of
six face images each with width >= 1, height >= 1 and a fully
allocated `w * h` buffer, `CubeSampler::sample`'s clamped pixel
coordinates land inside `[0, w-1] x [0, h-1]`, the `load_px` access is
in bounds, and `sample` returns a color (never panics). -/
theorem C10_sample_in_bounds (imgs : List Image) (qx qy qz : ℚ)
    (hnz : ¬(qx = 0 ∧ qy = 0 ∧ qz = 0))
    (hlen : imgs.length = 6)
    (himg : ∀ img ∈ imgs, 1 ≤ img.w ∧ 1 ≤ img.h ∧ img.buf.length = img.w * img.h) :
    ∃ c, CubeSampler.sample imgs ⟨FP.num qx, FP.num qy, FP.num qz⟩ = some c := by
  simp only [CubeSampler.sample]
  rw [maxBy3_eval qx qy qz]
  by_cases h1 : |qy| < |qx|
  · by_cases h2 : |qz| < |qx|
    · -- axis x wins
      have hm : |qx| ≠ 0 := by
        have : 0 ≤ |qy| := abs_nonneg qy
        intro h0
        rw [h0] at h1
        linarith
      simp only [if_pos h1, if_pos h2, if_true, FP.abs, FP.neg, FP.lt_zero_num]
      by_cases hs : 0 < qx
      · rw [decide_eq_true hs]
        exact sample_tail_some imgs 0 (-qz) qy (|qx|) (by omega) hlen himg hm
      · rw [decide_eq_false hs]
        exact sample_tail_some imgs 1 qz qy (|qx|) (by omega) hlen himg hm
    · -- axis z wins via x-branch
      have hm : |qz| ≠ 0 := by
        have h3 : |qx| ≤ |qz| := not_lt.1 h2
        have : 0 ≤ |qy| := abs_nonneg qy
        intro h0
        rw [h0] at h3
        have : |qx| ≤ 0 := h3
        have h4 : 0 ≤ |qx| := abs_nonneg qx
        have h5 : |qx| = 0 := le_antisymm this h4
        rw [h5] at h1
        linarith
      simp only [if_pos h1, if_neg h2]
      simp only [show ((2:Nat) = 0) = False by simp, show ((2:Nat) = 1) = False by simp,
        if_false, FP.abs, FP.neg, FP.lt_zero_num]
      by_cases hs : 0 < qz
      · rw [decide_eq_true hs]
        exact sample_tail_some imgs 4 qx qy (|qz|) (by omega) hlen himg hm
      · rw [decide_eq_false hs]
        exact sample_tail_some imgs 5 (-qx) qy (|qz|) (by omega) hlen himg hm
  · by_cases h2 : |qz| < |qy|
    · -- axis y wins
      have hm : |qy| ≠ 0 := by
        have : 0 ≤ |qz| := abs_nonneg qz
        intro h0
        rw [h0] at h2
        linarith
      simp only [if_neg h1, if_pos h2]
      simp only [show ((1:Nat) = 0) = False by simp, show ((1:Nat) = 1) = True by simp,
        if_false, if_true, FP.abs, FP.neg, FP.lt_zero_num]
      by_cases hs : 0 < qy
      · rw [decide_eq_true hs]
        exact sample_tail_some imgs 2 qx (-qz) (|qy|) (by omega) hlen himg hm
      · rw [decide_eq_false hs]
        exact sample_tail_some imgs 3 qx qz (|qy|) (by omega) hlen himg hm
    · -- axis z wins via y-branch
      have hm : |qz| ≠ 0 := by
        have h3 : |qx| ≤ |qy| := not_lt.1 h1
        have h4 : |qy| ≤ |qz| := not_lt.1 h2
        intro h0
        rw [h0] at h4
        have h5 : |qy| = 0 := le_antisymm h4 (abs_nonneg qy)
        rw [h5] at h3
        have h6 : |qx| = 0 := le_antisymm h3 (abs_nonneg qx)
        exact hnz ⟨abs_eq_zero.1 h6, abs_eq_zero.1 h5, abs_eq_zero.1 h0⟩
      simp only [if_neg h1, if_neg h2]
      simp only [show ((2:Nat) = 0) = False by simp, show ((2:Nat) = 1) = False by simp,
        if_false, FP.abs, FP.neg, FP.lt_zero_num]
      by_cases hs : 0 < qz
      · rw [decide_eq_true hs]
        exact sample_tail_some imgs 4 qx qy (|qz|) (by omega) hlen himg hm
      · rw [decide_eq_false hs]
        exact sample_tail_some imgs 5 (-qx) qy (|qz|) (by omega) hlen himg hm

/-- Witness for C10: the theorem applied at the oblique direction
`(3/5, 0, -4/5)` over six 2x3 face images with fully allocated
buffers. -/
theorem C10_sample_in_bounds_witness :
    ∃ c, CubeSampler.sample
      ((List.range 6).map (fun f =>
        ⟨List.replicate 6 ⟨FP.num f, 0, 0, 1⟩, 2, 3⟩))
      ⟨FP.num (3/5), FP.num 0, FP.num (-(4/5))⟩ = some c :=
  C10_sample_in_bounds _ (3/5) 0 (-(4/5))
    (by norm_num) (by with_unfolding_all decide) (by with_unfolding_all decide)

end C10Section

end LigHar
